import Mathlib

/-!
Verification of the notion-bot document-to-chunk pipeline and RAG query flow.

Shallow embedding of the data model and operations of:
  * `src/notion/models.py` (BlockType, ImageInfo, NotionBlock, NotionPage)
  * `src/indexer/chunker.py` / `lib/core.py` (Chunker: sectioning + chunk assembly)
  * `src/indexer/image_processor.py` / `lib/core.py` (ImageProcessor.process_image)
  * `src/rag/chain.py` / `lib/core.py` (RAGChain.chat, RAGChain.chat_with_history,
    format_context, prompts)

Python `str` values that the chunker manipulates character-wise (length, slicing,
strip) are modelled as `List Char`; strings only compared or concatenated are
modelled as `String`.  External collaborators (the vector search, the generation
model, the HTTP image fetch and the multimodal describe call) are injected as
parameters; the number of generation-model calls made by an operation is returned
explicitly so that "no call is made" is a provable statement.
-/

/-- `BlockType` from `src/notion/models.py`. -/
inductive BlockType where
  | paragraph
  | heading1
  | heading2
  | heading3
  | bulletedListItem
  | numberedListItem
  | toggle
  | code
  | quote
  | callout
  | image
  | divider
  | table
  | tableRow
  | childPage
  | childDatabase
  | bookmark
  | embedBlock
  | video
  | fileBlock
  | pdf
  | unknown
deriving DecidableEq, BEq

/-- `ImageInfo` from `src/notion/models.py`. -/
structure ImageInfo where
  url : String
  local_path : Option String := none
  description : Option String := none
  caption : Option String := none
deriving DecidableEq

/-- `NotionBlock` from `src/notion/models.py`: a node of the block tree.
`text` is modelled as `List Char` (the chunker does character-level work on it);
`metadata` is the open key-value map of the dataclass. -/
inductive NotionBlock where
  | mk (id : String) (type : BlockType) (text : List Char)
       (image : Option ImageInfo) (children : List NotionBlock)
       (metadata : List (String × String))

def NotionBlock.id : NotionBlock → String
  | .mk i _ _ _ _ _ => i

def NotionBlock.type : NotionBlock → BlockType
  | .mk _ t _ _ _ _ => t

def NotionBlock.text : NotionBlock → List Char
  | .mk _ _ x _ _ _ => x

def NotionBlock.image : NotionBlock → Option ImageInfo
  | .mk _ _ _ img _ _ => img

def NotionBlock.children : NotionBlock → List NotionBlock
  | .mk _ _ _ _ ch _ => ch

/-- `NotionPage` from `src/notion/models.py`. -/
structure NotionPage where
  id : String
  title : String
  url : String
  blocks : List NotionBlock
  metadata : List (String × String) := []

/-- The chunk metadata dict `{"section_index": section_index}` written by
`Chunker._create_chunks_from_section`. -/
structure ChunkMeta where
  section_index : Nat
deriving DecidableEq

/-- `Chunk` from `src/indexer/chunker.py`. -/
structure Chunk where
  id : String
  text : List Char
  page_id : String
  page_title : String
  page_url : String
  image_paths : List String
  metadata : ChunkMeta
deriving DecidableEq

/-- `Chunker.HEADING_TYPES = {HEADING_1, HEADING_2, HEADING_3}`. -/
def isHeadingType (t : BlockType) : Bool :=
  t == BlockType.heading1 || t == BlockType.heading2 || t == BlockType.heading3

/-- Python `str.strip()` on a `List Char`: drop whitespace from both ends
(`List.rdropWhile p l = (l.reverse.dropWhile p).reverse`). -/
def pstrip (l : List Char) : List Char :=
  (l.dropWhile Char.isWhitespace).rdropWhile Char.isWhitespace

/-- Python `s[-k:]` for `k > 0`: the last `min k (length s)` characters. -/
def pyTail (k : Nat) (l : List Char) : List Char :=
  l.drop (l.length - k)

/-! ## Sectioning phase (`Chunker._split_into_sections`)

The Python closure `process_blocks` mutates `sections` and `current_section`;
we thread that state explicitly. -/

/-- The mutable state of `_split_into_sections`: the closed sections plus the
section currently being accumulated. -/
structure SecState where
  sections : List (List NotionBlock)
  current : List NotionBlock

/-- One iteration of the `for block in blocks` body of `process_blocks`,
without the child scan: a heading closes the current section (if non-empty) and
starts a new one seeded with the heading; any other block is appended. -/
def handleBlock (b : NotionBlock) (s : SecState) : SecState :=
  if isHeadingType b.type then
    { sections := if s.current.isEmpty then s.sections else s.sections ++ [s.current],
      current := [b] }
  else
    { s with current := s.current ++ [b] }

/-- The child scan of `process_blocks` fused with its recursive call: for each
child, a non-heading child is appended to the current section (its own children
are NOT visited, exactly as in the source), while a heading child goes through
`process_blocks([child])`, i.e. it is handled and then its children are scanned. -/
def procCs : List NotionBlock → SecState → SecState
  | [], s => s
  | NotionBlock.mk i t x img ch md :: cs, s =>
    procCs cs
      (if isHeadingType t then
        procCs ch (handleBlock (NotionBlock.mk i t x img ch md) s)
      else
        { s with current := s.current ++ [NotionBlock.mk i t x img ch md] })

/-- The top-level `process_blocks(blocks)` loop: every top-level block is handled
and then its children are scanned. -/
def procBs : List NotionBlock → SecState → SecState
  | [], s => s
  | NotionBlock.mk i t x img ch md :: bs, s =>
    procBs bs (procCs ch (handleBlock (NotionBlock.mk i t x img ch md) s))

/-- `Chunker._split_into_sections`. -/
def splitIntoSections (blocks : List NotionBlock) : List (List NotionBlock) :=
  let s := procBs blocks ⟨[], []⟩
  if s.current.isEmpty then s.sections else s.sections ++ [s.current]

/-- The sequence of blocks the sectioning phase actually visits (and hence
places into sections), in visit order: a non-heading child is taken without its
descendants, a heading child is taken together with its scanned children. -/
def visitCs : List NotionBlock → List NotionBlock
  | [] => []
  | NotionBlock.mk i t x img ch md :: cs =>
    (if isHeadingType t then
      NotionBlock.mk i t x img ch md :: visitCs ch
    else
      [NotionBlock.mk i t x img ch md]) ++ visitCs cs

/-- Visit order for the top-level block list. -/
def visitBs : List NotionBlock → List NotionBlock
  | [] => []
  | NotionBlock.mk i t x img ch md :: bs =>
    (NotionBlock.mk i t x img ch md :: visitCs ch) ++ visitBs bs

/-- Pre-order (document-order) flattening of a block forest. -/
def preBs : List NotionBlock → List NotionBlock
  | [] => []
  | NotionBlock.mk i t x img ch md :: bs =>
    NotionBlock.mk i t x img ch md :: (preBs ch ++ preBs bs)

/-- All blocks placed by a section state, in order. -/
def joinAll (s : SecState) : List NotionBlock :=
  s.sections.flatten ++ s.current

/-! ## Chunk-assembly phase (`Chunker._create_chunks_from_section`) -/

/-- The per-type prefix map of `Chunker._get_block_text`. -/
def renderedTypeHead : BlockType → List Char
  | .heading1 => "# ".toList
  | .heading2 => "## ".toList
  | .heading3 => "### ".toList
  | .bulletedListItem => "• ".toList
  | .numberedListItem => "1. ".toList
  | .quote => "> ".toList
  | .code => "```\n".toList
  | _ => []

/-- The per-type suffix map of `Chunker._get_block_text`. -/
def renderedTypeTail : BlockType → List Char
  | .code => "\n```".toList
  | _ => []

/-- `Chunker._get_block_text`: the rendered text of a block — prefixed text if
the block's text is truthy, plus a bracketed image-description line if the
block has an image with a truthy description, joined by a newline. -/
def getBlockText (b : NotionBlock) : List Char :=
  let textParts : List (List Char) :=
    if b.text.isEmpty then [] else [renderedTypeHead b.type ++ b.text ++ renderedTypeTail b.type]
  let descParts : List (List Char) :=
    match b.image with
    | some img =>
      match img.description with
      | some d => if d.isEmpty then [] else ["[画像説明: ".toList ++ d.toList ++ "]".toList]
      | none => []
    | none => []
  List.intercalate ['\n'] (textParts ++ descParts)

/-- `Chunker._get_block_images`: the block's image local path, if the block has
an image whose `local_path` is truthy (set and non-empty). -/
def getBlockImages (b : NotionBlock) : List String :=
  match b.image with
  | some img =>
    match img.local_path with
    | some p => if p.isEmpty then [] else [p]
    | none => []
  | none => []

/-- The `Chunk(...)` constructor call of `_create_chunks_from_section`:
id `f"{page.id}_{section_index}_{chunk_index}"` (braces here quote the
Python f-string). -/
def mkChunk (page : NotionPage) (sectionIndex chunkIndex : Nat)
    (text : List Char) (images : List String) : Chunk :=
  { id := page.id ++ "_" ++ Nat.repr sectionIndex ++ "_" ++ Nat.repr chunkIndex,
    text := text,
    page_id := page.id,
    page_title := page.title,
    page_url := page.url,
    image_paths := images,
    metadata := ⟨sectionIndex⟩ }

/-- The mutable state of the `for block in section` loop of
`_create_chunks_from_section`. -/
structure CState where
  chunks : List Chunk
  currentText : List Char
  currentImages : List String
  chunkIndex : Nat

/-- One iteration of the `for block in section` loop of
`_create_chunks_from_section`. -/
def chunkStep (size overlap : Nat) (page : NotionPage) (sectionIndex : Nat)
    (b : NotionBlock) (st : CState) : CState :=
  let blockText := getBlockText b
  let blockImages := getBlockImages b
  if blockImages.isEmpty then
    -- text-only branch: size check against chunk_size
    let newText :=
      if st.currentText.isEmpty then blockText
      else st.currentText ++ '\n' :: blockText
    if size < newText.length then
      -- flush the buffer (skipping emission when it is whitespace-only) ...
      let st1 :=
        if (pstrip st.currentText).isEmpty then st
        else
          { st with
            chunks := st.chunks ++
              [mkChunk page sectionIndex st.chunkIndex (pstrip st.currentText) st.currentImages],
            chunkIndex := st.chunkIndex + 1 }
      -- ... then seed the new buffer with the trailing overlap, if any
      let newCurrent :=
        if 0 < overlap ∧ ¬ st.currentText.isEmpty then
          pyTail overlap st.currentText ++ '\n' :: blockText
        else blockText
      { st1 with currentText := newCurrent, currentImages := [] }
    else
      { st with currentText := newText }
  else
    -- image branch: flush buffer + this block together, reset
    let combinedText :=
      if st.currentText.isEmpty then blockText
      else st.currentText ++ '\n' :: blockText
    let combinedImages := st.currentImages ++ blockImages
    if ¬ (pstrip combinedText).isEmpty ∨ ¬ combinedImages.isEmpty then
      { chunks := st.chunks ++
          [mkChunk page sectionIndex st.chunkIndex (pstrip combinedText) combinedImages],
        currentText := [],
        currentImages := [],
        chunkIndex := st.chunkIndex + 1 }
    else
      { st with currentText := [], currentImages := [] }

/-- The whole `for block in section` loop. -/
def chunkLoop (size overlap : Nat) (page : NotionPage) (sectionIndex : Nat) :
    List NotionBlock → CState → CState
  | [], st => st
  | b :: bs, st =>
    chunkLoop size overlap page sectionIndex bs (chunkStep size overlap page sectionIndex b st)

/-- `Chunker._create_chunks_from_section`: run the loop from the empty state,
then emit one final chunk if the remaining buffer is not whitespace-only. -/
def createChunksFromSection (size overlap : Nat) (page : NotionPage)
    (sectionIndex : Nat) (sec : List NotionBlock) : List Chunk :=
  let st := chunkLoop size overlap page sectionIndex sec ⟨[], [], [], 0⟩
  if (pstrip st.currentText).isEmpty then st.chunks
  else st.chunks ++ [mkChunk page sectionIndex st.chunkIndex (pstrip st.currentText) st.currentImages]

/-- `Chunker.chunk_page`: split into sections, then chunk each section with its
`enumerate` index. -/
def chunkPage (size overlap : Nat) (page : NotionPage) : List Chunk :=
  let sections := splitIntoSections page.blocks
  (sections.enum.map (fun p => createChunksFromSection size overlap page p.1 p.2)).flatten

/-! ## Image annotation (`ImageProcessor.process_image`)

The two fallible collaborators are injected as already-resolved outcomes:
`downloadResult` is the saved local path produced by `_download_image` (or
`none` when the download raised and was caught), and `describeResult` is the
text returned by the vision model inside `_generate_description` (or `none`
when that call raised and was caught).  The Python method catches every
exception of either stage, so the embedding is a total function. -/

/-- `ImageProcessor.process_image`. -/
def processImage (downloadResult : Option String) (describeResult : Option String)
    (image : ImageInfo) : ImageInfo :=
  if image.url.isEmpty then image
  else
    match downloadResult with
    | none => image
    | some localPath =>
      let withPath := { image with local_path := some localPath }
      -- `_generate_description` returns the model text on success and
      -- `caption or ""` when the generation raised
      let desc :=
        match describeResult with
        | some d => d
        | none => image.caption.getD ""
      { withPath with description := some desc }

/-! ## RAG query flow (`RAGChain.chat`, `RAGChain.chat_with_history`)

The vector search is injected as its result list; the generation model is an
injected function from the message list to the returned text.  Each chat
operation returns the number of generation-model calls it made alongside the
response, so "no external generation call" is a provable statement.
Python's `list(set(...))` is modelled as `List.dedup` (first occurrences kept);
the source's set iteration order is arbitrary, and the spec only constrains
membership and multiplicity of `image_paths`. -/

/-- One search result dict produced by `VectorStore.search` /
`Retriever.retrieve`. -/
structure SearchResult where
  text : String
  page_title : String
  page_url : String
  image_paths : List String
  score : Rat
deriving DecidableEq

/-- One source dict of the chat response. -/
structure Source where
  page_title : String
  page_url : String
  score : Rat
deriving DecidableEq

/-- One chat message dict `{"role": ..., "content": ...}` (braces here quote
the Python dict literal). -/
structure Message where
  role : String
  content : String
deriving DecidableEq

/-- `ChatResponse` from `src/rag/chain.py`. -/
structure ChatResponse where
  answer : String
  sources : List Source
  image_paths : List String
deriving DecidableEq

/-- `SYSTEM_PROMPT` from `lib/core.py` (the module `src/rag/prompts.py` that
`chain.py` imports is not present under `src/`; `lib/core.py` carries the same
constants). -/
def SYSTEM_PROMPT : String :=
  "あなたは社内ドキュメント（Notion）に基づいて質問に答えるアシスタントです。\n\n以下のルールに従って回答してください：\n\n1. 回答は必ず提供されたコンテキストに基づいてください。情報がない場合は正直に伝えてください。\n2. 出典となるページタイトルを回答の最後に記載してください。\n3. 簡潔で明確に回答してください。\n4. 日本語で回答してください。\n"

/-- `RAG_PROMPT_TEMPLATE.format(context=..., question=...)` from `lib/core.py`. -/
def ragPrompt (context question : String) : String :=
  "以下はNotionドキュメントから取得した関連情報です：\n\n---\n" ++ context ++
  "\n---\n\n上記の情報を参考に、以下の質問に答えてください：\n\n質問: " ++ question ++ "\n"

/-- `format_context` from `lib/core.py`: rank-ordered labelled blocks joined by
a divider line (`enumerate(search_results, 1)`). -/
def formatContext (results : List SearchResult) : String :=
  String.intercalate "\n---\n"
    (results.enum.map (fun p =>
      "### 情報 " ++ Nat.repr (p.1 + 1) ++ " (ページ: " ++ p.2.page_title ++ ")\n" ++
      p.2.text ++ "\n"))

/-- The fixed apology answer returned by `RAGChain.chat` when the search is
empty. -/
def apologyAnswer : String :=
  "申し訳ありませんが、この質問に関連する情報がドキュメントに見つかりませんでした。"

/-- The placeholder context used by `RAGChain.chat_with_history` when the
search is empty. -/
def noInfoContext : String := "関連情報が見つかりませんでした。"

/-- The source list built from the search results. -/
def mkSources (results : List SearchResult) : List Source :=
  results.map (fun r => ⟨r.page_title, r.page_url, r.score⟩)

/-- `RAGChain.chat`.  Returns the response and the number of generation-model
calls made. -/
def ragChat (searchResults : List SearchResult) (llm : List Message → String)
    (question : String) : ChatResponse × Nat :=
  if searchResults.isEmpty then
    (⟨apologyAnswer, [], []⟩, 0)
  else
    let context := formatContext searchResults
    let userPrompt := ragPrompt context question
    let answer := llm [⟨"system", SYSTEM_PROMPT⟩, ⟨"user", userPrompt⟩]
    let allImagePaths := (searchResults.map SearchResult.image_paths).flatten
    (⟨answer, mkSources searchResults, allImagePaths.dedup⟩, 1)

/-- `RAGChain.chat_with_history`.  Returns the response and the number of
generation-model calls made. -/
def ragChatWithHistory (searchResults : List SearchResult)
    (llm : List Message → String) (history : List Message)
    (question : String) : ChatResponse × Nat :=
  let context :=
    if searchResults.isEmpty then noInfoContext else formatContext searchResults
  let userPrompt := ragPrompt context question
  let msgs := Message.mk "system" SYSTEM_PROMPT :: history ++ [Message.mk "user" userPrompt]
  let answer := llm msgs
  let allImagePaths := (searchResults.map SearchResult.image_paths).flatten
  (⟨answer, mkSources searchResults, allImagePaths.dedup⟩, 1)

/-- Every block after the first of a section is a non-heading (headings only
ever start sections). -/
def tailOK (sec : List NotionBlock) : Prop :=
  ∀ b ∈ sec.drop 1, isHeadingType b.type = false

/-- Invariant of the sectioning state: all closed sections and the current
section have headings only in head position. -/
def goodS (s : SecState) : Prop :=
  (∀ sec ∈ s.sections, tailOK sec) ∧ tailOK s.current

/-- The C4 chunk property: a chunk with no attached image has non-empty,
non-whitespace-only text. -/
def chunkTextOK (c : Chunk) : Prop :=
  c.image_paths = [] → c.text ≠ [] ∧ ∃ ch ∈ c.text, ch.isWhitespace = false

/-! ## Concrete inputs used by counterexamples and witnesses -/

/-- A paragraph block. -/
def paraBlock (i : String) (txt : String) (ch : List NotionBlock) : NotionBlock :=
  NotionBlock.mk i BlockType.paragraph txt.toList none ch []

/-- A level-1 heading block. -/
def headBlock (i : String) (txt : String) (ch : List NotionBlock) : NotionBlock :=
  NotionBlock.mk i BlockType.heading1 txt.toList none ch []

/-- An image block with a downloaded local path and a generated description. -/
def imageBlock (i : String) (path : String) : NotionBlock :=
  NotionBlock.mk i BlockType.image []
    (some { url := "http://img", local_path := some path, description := some "desc" }) [] []

/-- Depth-3 tree: paragraph `a` has a paragraph child `b` which has a paragraph
child `c`. -/
def exDepth3 : List NotionBlock :=
  [paraBlock "a" "x" [paraBlock "b" "y" [paraBlock "c" "z" []]]]

/-- Depth-2 tree mixing headings and paragraph children. -/
def exDepth2 : List NotionBlock :=
  [headBlock "h1" "Intro" [paraBlock "a" "x" []],
   paraBlock "b" "y" [headBlock "h2" "Details" []],
   paraBlock "d" "w" []]

/-- A page with no blocks (the chunker arguments other than the section list do
not influence the properties under test). -/
def pgEx : NotionPage := { id := "pg", title := "Title", url := "http://u", blocks := [] }

/-- Forty-five `a` characters: the first block of the split-forcing section. -/
def t1ex : List Char := List.replicate 45 'a'

/-- Two-block section that forces a split at `chunk_size = 50`. -/
def secOverlap : List NotionBlock :=
  [NotionBlock.mk "a" BlockType.paragraph t1ex none [] [],
   NotionBlock.mk "b" BlockType.paragraph "bbbbb".toList none [] []]

/-- A page used by the chunk-level witnesses: heading, paragraph, image,
paragraph. -/
def pgWitness : NotionPage :=
  { id := "pg", title := "Title", url := "http://u",
    blocks := [headBlock "h" "Intro" [], paraBlock "p" "some text" [],
               imageBlock "i1" "/tmp/img1.png", paraBlock "q" "after" [],
               imageBlock "i2" "/tmp/img2.png", paraBlock "r" "tail" []] }

/-- Two search results sharing one image path, scores 0.9 and 0.7. -/
def resultsShared : List SearchResult :=
  [{ text := "t1", page_title := "P1", page_url := "u1",
     image_paths := ["img.png"], score := (9 : Rat) / 10 },
   { text := "t2", page_title := "P2", page_url := "u2",
     image_paths := ["img.png"], score := (7 : Rat) / 10 }]

/-- A fixed generation model used by witnesses. -/
def llmConst : List Message → String := fun _ => "model answer"

/-- The final chunk `chunk_page` emits for `pgWitness` (no image attached). -/
def chunkTail : Chunk :=
  { id := "pg_0_2", text := "tail".toList, page_id := "pg", page_title := "Title",
    page_url := "http://u", image_paths := [], metadata := ⟨0⟩ }

/-! ## Lemmas: sectioning -/

theorem joinAll_handleBlock (b : NotionBlock) (s : SecState) :
    joinAll (handleBlock b s) = joinAll s ++ [b] := by
  by_cases h : isHeadingType b.type = true
  · by_cases hc : s.current = []
    · simp [handleBlock, joinAll, h, hc]
    · simp [handleBlock, joinAll, h, hc]
  · simp [handleBlock, joinAll, h]

theorem joinAll_procCs (cs : List NotionBlock) (s : SecState) :
    joinAll (procCs cs s) = joinAll s ++ visitCs cs := by
  induction cs, s using procCs.induct with
  | case1 s => simp [procCs, visitCs]
  | case2 i t x img ch md cs s ih1 ih2 =>
    by_cases h : isHeadingType t = true
    · simp only [h, dite_true] at ih2
      simp only [procCs, visitCs, h, if_true]
      rw [ih2, ih1, joinAll_handleBlock]
      simp [NotionBlock.type, List.append_assoc]
    · simp only [Bool.not_eq_true] at h
      simp only [h, Bool.false_eq_true, dite_false] at ih2
      simp only [procCs, visitCs, h, Bool.false_eq_true, if_false]
      rw [ih2]
      simp [joinAll, List.append_assoc]

theorem joinAll_procBs (bs : List NotionBlock) (s : SecState) :
    joinAll (procBs bs s) = joinAll s ++ visitBs bs := by
  induction bs generalizing s with
  | nil => simp [procBs, visitBs]
  | cons b bs ih =>
    cases b with
    | mk i t x img ch md =>
      simp only [procBs, visitBs]
      rw [ih, joinAll_procCs, joinAll_handleBlock]
      simp [List.append_assoc]

theorem splitIntoSections_flatten (bs : List NotionBlock) :
    (splitIntoSections bs).flatten = visitBs bs := by
  have h := joinAll_procBs bs ⟨[], []⟩
  simp only [joinAll, List.flatten_nil, List.nil_append, List.append_nil] at h
  unfold splitIntoSections
  by_cases hc : (procBs bs ⟨[], []⟩).current = []
  · rw [hc] at h
    simp [hc, h]
    simpa using h
  · simp [hc]
    rw [← h]

theorem tailOK_append_nonheading {l : List NotionBlock} {b : NotionBlock}
    (hl : tailOK l) (hb : isHeadingType b.type = false) : tailOK (l ++ [b]) := by
  cases l with
  | nil => intro c hc; simp at hc
  | cons a l =>
    intro c hc
    simp only [List.cons_append, List.drop_succ_cons, List.drop_zero] at hc
    rcases List.mem_append.mp hc with h1 | h1
    · exact hl c (by simpa using h1)
    · simp at h1
      subst h1
      exact hb

theorem goodS_handleBlock {b : NotionBlock} {s : SecState} (hs : goodS s) :
    goodS (handleBlock b s) := by
  obtain ⟨h1, h2⟩ := hs
  by_cases h : isHeadingType b.type = true
  · constructor
    · intro sec hsec
      simp only [handleBlock, h, if_true] at hsec
      by_cases hc : s.current = []
      · simp [hc] at hsec
        exact h1 sec hsec
      · simp [hc] at hsec
        rcases hsec with hsec | hsec
        · exact h1 sec hsec
        · subst hsec; exact h2
    · intro c hc
      simp [handleBlock, h] at hc
  · simp only [Bool.not_eq_true] at h
    constructor
    · intro sec hsec
      simp only [handleBlock, h, Bool.false_eq_true, if_false] at hsec
      exact h1 sec hsec
    · simp only [handleBlock, h, Bool.false_eq_true, if_false]
      exact tailOK_append_nonheading h2 h

theorem goodS_procCs (cs : List NotionBlock) (s : SecState) (hs : goodS s) :
    goodS (procCs cs s) := by
  induction cs, s using procCs.induct with
  | case1 s => simpa [procCs] using hs
  | case2 i t x img ch md cs s ih1 ih2 =>
    by_cases h : isHeadingType t = true
    · simp only [h, dite_true] at ih2
      simp only [procCs, h, if_true]
      exact ih2 (ih1 (goodS_handleBlock hs))
    · simp only [Bool.not_eq_true] at h
      simp only [h, Bool.false_eq_true, dite_false] at ih2
      simp only [procCs, h, Bool.false_eq_true, if_false]
      refine ih2 ⟨hs.1, ?_⟩
      exact tailOK_append_nonheading hs.2 (by simpa [NotionBlock.type] using h)

theorem goodS_procBs (bs : List NotionBlock) (s : SecState) (hs : goodS s) :
    goodS (procBs bs s) := by
  induction bs generalizing s with
  | nil => simpa [procBs] using hs
  | cons b bs ih =>
    cases b with
    | mk i t x img ch md =>
      exact ih _ (goodS_procCs _ _ (goodS_handleBlock hs))

theorem splitIntoSections_tailOK (bs : List NotionBlock) :
    ∀ sec ∈ splitIntoSections bs, ∀ b ∈ sec.drop 1, isHeadingType b.type = false := by
  have hg : goodS (procBs bs ⟨[], []⟩) := by
    apply goodS_procBs
    constructor
    · intro sec hsec; simp at hsec
    · intro b hb; simp at hb
  intro sec hsec
  unfold splitIntoSections at hsec
  by_cases hc : (procBs bs ⟨[], []⟩).current = []
  · simp [hc] at hsec
    exact hg.1 sec hsec
  · simp [hc] at hsec
    rcases hsec with hsec | hsec
    · exact hg.1 sec hsec
    · subst hsec; exact hg.2

/-- The visited sequence is a subsequence of the pre-order flattening. -/
theorem visitCs_sublist_preBs (cs : List NotionBlock) : (visitCs cs).Sublist (preBs cs) := by
  induction cs using visitCs.induct with
  | case1 => simp [visitCs, preBs]
  | case2 i t x img ch md cs ih1 ih2 =>
    by_cases h : isHeadingType t = true
    · simp only [h, dite_true] at ih1
      simp only [visitCs, preBs, h, if_true]
      exact (ih1.append ih2).cons₂ _
    · simp only [Bool.not_eq_true] at h
      simp only [visitCs, preBs, h, Bool.false_eq_true, if_false]
      simp only [List.singleton_append]
      exact (ih2.trans (List.sublist_append_right _ _)).cons₂ _

theorem visitBs_sublist_preBs (bs : List NotionBlock) : (visitBs bs).Sublist (preBs bs) := by
  induction bs with
  | nil => simp [visitBs, preBs]
  | cons b bs ih =>
    cases b with
    | mk i t x img ch md =>
      simp only [visitBs, preBs, List.cons_append]
      exact ((visitCs_sublist_preBs ch).append ih).cons₂ _

/-- On forests whose members have childless children, the visited sequence is
exactly the pre-order flattening. -/
theorem visitCs_eq_preBs_of_flat (cs : List NotionBlock)
    (h : ∀ c ∈ cs, c.children = []) : visitCs cs = preBs cs := by
  induction cs with
  | nil => simp [visitCs, preBs]
  | cons c cs ih =>
    cases c with
    | mk i t x img ch md =>
      have hch : ch = [] := h _ (List.mem_cons_self _ _)
      subst hch
      have ih' := ih (fun c hc => h c (List.mem_cons_of_mem _ hc))
      by_cases ht : isHeadingType t = true
      · simp [visitCs, preBs, ht, ih']
      · simp only [Bool.not_eq_true] at ht
        simp [visitCs, preBs, ht, ih']

theorem visitBs_eq_preBs_of_depth2 (bs : List NotionBlock)
    (h : ∀ b ∈ bs, ∀ c ∈ b.children, c.children = []) : visitBs bs = preBs bs := by
  induction bs with
  | nil => simp [visitBs, preBs]
  | cons b bs ih =>
    cases b with
    | mk i t x img ch md =>
      have hch : ∀ c ∈ ch, c.children = [] := by
        intro c hc
        exact h _ (List.mem_cons_self _ _) c (by simpa [NotionBlock.children] using hc)
      have ih' := ih (fun b hb => h b (List.mem_cons_of_mem _ hb))
      simp [visitBs, preBs, visitCs_eq_preBs_of_flat ch hch, ih']

/-! ## Lemmas: stripped text -/

/-- A non-empty stripped string contains a non-whitespace character. -/
theorem pstrip_has_non_ws {l : List Char} (h : pstrip l ≠ []) :
    ∃ c ∈ pstrip l, c.isWhitespace = false := by
  unfold pstrip at *
  have hpre : (l.dropWhile Char.isWhitespace).rdropWhile Char.isWhitespace <+:
      l.dropWhile Char.isWhitespace := List.rdropWhile_prefix _ _
  refine ⟨_, List.head_mem h, ?_⟩
  rw [hpre.head h]
  exact List.head_dropWhile_not Char.isWhitespace l _

/-- Whitespace-only (in particular empty) input strips to nothing. -/
theorem pstrip_eq_nil_of_all_ws {l : List Char}
    (h : ∀ c ∈ l, c.isWhitespace = true) : pstrip l = [] := by
  unfold pstrip
  have : l.dropWhile Char.isWhitespace = [] := List.dropWhile_eq_nil_iff.mpr h
  simp [this]

theorem isHeading_para : isHeadingType BlockType.paragraph = false := rfl
theorem isHeading_h1 : isHeadingType BlockType.heading1 = true := rfl
theorem isHeading_img : isHeadingType BlockType.image = false := rfl



/-- Claim C1 (amended): every section produced by the sectioning phase has headings
only in head position, and for trees of nesting depth at most 2 the sections
partition the tree's blocks exactly, in document (pre-order) order.  (For deeper
trees the source drops descendants reached through a non-heading child.) -/
theorem c1_sections_partition (bs : List NotionBlock) :
    (∀ sec ∈ splitIntoSections bs, ∀ b ∈ sec.drop 1, isHeadingType b.type = false) ∧
    ((∀ b ∈ bs, ∀ c ∈ b.children, c.children = []) →
      (splitIntoSections bs).flatten = preBs bs) := by
  refine ⟨splitIntoSections_tailOK bs, fun h => ?_⟩
  rw [splitIntoSections_flatten, visitBs_eq_preBs_of_depth2 bs h]

/-- Counterexample to claim C1: in the depth-3 tree `exDepth3`, block "c" (grandchild
through a non-heading child) is in the document's pre-order flattening but in
no section produced by `_split_into_sections`. -/
theorem c1_counterexample :
    "c" ∈ (preBs exDepth3).map NotionBlock.id ∧
    ∀ sec ∈ splitIntoSections exDepth3, "c" ∉ sec.map NotionBlock.id := by
  have hpre : (preBs exDepth3).map NotionBlock.id = ["a", "b", "c"] := by
    simp [exDepth3, preBs, paraBlock, NotionBlock.id]
  have hsec : splitIntoSections exDepth3 =
      [[paraBlock "a" "x" [paraBlock "b" "y" [paraBlock "c" "z" []]],
        paraBlock "b" "y" [paraBlock "c" "z" []]]] := by
    simp [splitIntoSections, exDepth3, paraBlock, procBs, procCs, handleBlock,
      isHeading_para, NotionBlock.type]
  constructor
  · rw [hpre]; decide
  · rw [hsec]; decide

/-- Witness for `c1_sections_partition` at the concrete depth-2 tree
`exDepth2`. -/
theorem c1_sections_partition_witness :
    (splitIntoSections exDepth2).flatten = preBs exDepth2 ∧
    (∀ sec ∈ splitIntoSections exDepth2, ∀ b ∈ sec.drop 1, isHeadingType b.type = false) :=
  ⟨(c1_sections_partition exDepth2).2
      (by simp [exDepth2, paraBlock, headBlock, NotionBlock.children]),
   (c1_sections_partition exDepth2).1⟩

/-! ## Lemmas: chunk assembly -/

theorem mkChunk_stripped_textOK {page : NotionPage} {k j : Nat} {l : List Char}
    {images : List String} (h : images = [] → ¬ (pstrip l) = []) :
    chunkTextOK (mkChunk page k j (pstrip l) images) := by
  intro himg
  have hne := h (by simpa [mkChunk] using himg)
  exact ⟨by simpa [mkChunk] using hne, by simpa [mkChunk] using pstrip_has_non_ws hne⟩

theorem chunkStep_cases (size overlap : Nat) (page : NotionPage) (k : Nat)
    (b : NotionBlock) (st : CState) :
    ((chunkStep size overlap page k b st).chunks = st.chunks ∧
     (chunkStep size overlap page k b st).chunkIndex = st.chunkIndex) ∨
    ∃ text images,
      (chunkStep size overlap page k b st).chunks
          = st.chunks ++ [mkChunk page k st.chunkIndex text images] ∧
      (chunkStep size overlap page k b st).chunkIndex = st.chunkIndex + 1 ∧
      (∃ l, text = pstrip l) ∧ (images = [] → text ≠ []) := by
  simp only [chunkStep]
  split_ifs <;> dsimp only <;>
    first
    | (left; exact ⟨rfl, rfl⟩)
    | (right; refine ⟨_, _, rfl, rfl, ⟨_, rfl⟩, fun himg => ?_⟩; simp_all)

theorem chunkLoop_textOK (size overlap : Nat) (page : NotionPage) (k : Nat)
    (sec : List NotionBlock) (st : CState) (hst : ∀ c ∈ st.chunks, chunkTextOK c) :
    ∀ c ∈ (chunkLoop size overlap page k sec st).chunks, chunkTextOK c := by
  induction sec generalizing st with
  | nil => simpa [chunkLoop] using hst
  | cons b bs ih =>
    refine ih _ ?_
    intro c hc
    rcases chunkStep_cases size overlap page k b st with ⟨he, _⟩ | ⟨text, images, he, _, ⟨l, hl⟩, hne⟩
    · exact hst c (he ▸ hc)
    · rw [he] at hc
      rcases List.mem_append.mp hc with h | h
      · exact hst c h
      · simp only [List.mem_singleton] at h
        subst h
        intro himg
        have himg' : images = [] := by simpa [mkChunk] using himg
        have hne' := hne himg'
        subst hl
        exact ⟨by simpa [mkChunk] using hne',
               by simpa [mkChunk] using pstrip_has_non_ws hne'⟩

theorem createChunks_textOK (size overlap : Nat) (page : NotionPage) (k : Nat)
    (sec : List NotionBlock) :
    ∀ c ∈ createChunksFromSection size overlap page k sec, chunkTextOK c := by
  intro c hc
  have hloop := chunkLoop_textOK size overlap page k sec ⟨[], [], [], 0⟩
    (by intro c hc; simp at hc)
  simp only [createChunksFromSection] at hc
  split_ifs at hc with h
  · exact hloop c hc
  · rcases List.mem_append.mp hc with h' | h'
    · exact hloop c h'
    · simp only [List.mem_singleton] at h'
      subst h'
      intro himg
      have hne : pstrip (chunkLoop size overlap page k sec ⟨[], [], [], 0⟩).currentText ≠ [] := by
        simpa using h
      exact ⟨by simpa [mkChunk] using hne,
             by simpa [mkChunk] using pstrip_has_non_ws hne⟩

/-- Claim C4: for every document and all parameters with positive chunk size, every
chunk emitted by `chunk_page` with no attached image has text that is non-empty
and not whitespace-only. -/
theorem c4_no_degenerate_chunks (size overlap : Nat) (page : NotionPage)
    (_hsize : 0 < size) :
    ∀ c ∈ chunkPage size overlap page, c.image_paths = [] →
      c.text ≠ [] ∧ ∃ ch ∈ c.text, ch.isWhitespace = false := by
  intro c hc
  simp only [chunkPage, List.mem_flatten, List.mem_map] at hc
  obtain ⟨L, ⟨p, hp, rfl⟩, hcL⟩ := hc
  exact createChunks_textOK size overlap page p.1 p.2 c hcL

theorem chunkLoop_secIdx (size overlap : Nat) (page : NotionPage) (k : Nat)
    (sec : List NotionBlock) (st : CState)
    (hst : ∀ c ∈ st.chunks, c.metadata.section_index = k) :
    ∀ c ∈ (chunkLoop size overlap page k sec st).chunks, c.metadata.section_index = k := by
  induction sec generalizing st with
  | nil => simpa [chunkLoop] using hst
  | cons b bs ih =>
    refine ih _ ?_
    intro c hc
    rcases chunkStep_cases size overlap page k b st with ⟨he, _⟩ | ⟨text, images, he, _, _, _⟩
    · exact hst c (he ▸ hc)
    · rw [he] at hc
      rcases List.mem_append.mp hc with h | h
      · exact hst c h
      · simp only [List.mem_singleton] at h
        subst h
        simp [mkChunk]

theorem createChunks_secIdx (size overlap : Nat) (page : NotionPage) (k : Nat)
    (sec : List NotionBlock) :
    ∀ c ∈ createChunksFromSection size overlap page k sec, c.metadata.section_index = k := by
  intro c hc
  have hloop := chunkLoop_secIdx size overlap page k sec ⟨[], [], [], 0⟩
    (by intro c hc; simp at hc)
  simp only [createChunksFromSection] at hc
  split_ifs at hc with h
  · exact hloop c hc
  · rcases List.mem_append.mp hc with h' | h'
    · exact hloop c h'
    · simp only [List.mem_singleton] at h'
      subst h'
      simp [mkChunk]

theorem pairwise_le_of_const {l : List Nat} {n : Nat} (h : ∀ x ∈ l, x = n) :
    l.Pairwise (· ≤ ·) := by
  apply List.pairwise_of_forall_mem_list
  intro a ha b hb
  rw [h a ha, h b hb]

theorem enumFrom_chunks_bounds (size overlap : Nat) (page : NotionPage)
    (ss : List (List NotionBlock)) (n : Nat) :
    (∀ x ∈ (((List.enumFrom n ss).map
        (fun p => createChunksFromSection size overlap page p.1 p.2)).flatten.map
          (fun c => c.metadata.section_index)), n ≤ x) ∧
    ((((List.enumFrom n ss).map
        (fun p => createChunksFromSection size overlap page p.1 p.2)).flatten.map
          (fun c => c.metadata.section_index)).Pairwise (· ≤ ·)) := by
  induction ss generalizing n with
  | nil => simp
  | cons s ss ih =>
    simp only [List.enumFrom_cons, List.map_cons, List.flatten_cons, List.map_append]
    have hconst : ∀ x ∈ (createChunksFromSection size overlap page n s).map
        (fun c => c.metadata.section_index), x = n := by
      intro x hx
      simp only [List.mem_map] at hx
      obtain ⟨c, hc, rfl⟩ := hx
      exact createChunks_secIdx size overlap page n s c hc
    constructor
    · intro x hx
      rcases List.mem_append.mp hx with h | h
      · exact (hconst x h).ge
      · exact le_trans (Nat.le_succ n) ((ih (n + 1)).1 x h)
    · apply List.pairwise_append.mpr
      refine ⟨pairwise_le_of_const hconst, (ih (n + 1)).2, ?_⟩
      intro x hx y hy
      rw [hconst x hx]
      exact le_trans (Nat.le_succ n) ((ih (n + 1)).1 y hy)

/-- Claim C5: the `section_index` metadata of the chunks returned by `chunk_page` is
monotonically non-decreasing across the emitted sequence. -/
theorem c5_section_index_monotone (size overlap : Nat) (page : NotionPage) :
    ((chunkPage size overlap page).map
      (fun c => c.metadata.section_index)).Pairwise (· ≤ ·) := by
  simp only [chunkPage, List.enum_eq_enumFrom]
  exact (enumFrom_chunks_bounds size overlap page (splitIntoSections page.blocks) 0).2

theorem chunkLoop_ids (size overlap : Nat) (page : NotionPage) (k : Nat)
    (sec : List NotionBlock) (st : CState)
    (hlen : st.chunkIndex = st.chunks.length)
    (hids : st.chunks.map Chunk.id = (List.range st.chunks.length).map
        (fun j => page.id ++ "_" ++ Nat.repr k ++ "_" ++ Nat.repr j)) :
    (chunkLoop size overlap page k sec st).chunkIndex
        = (chunkLoop size overlap page k sec st).chunks.length ∧
    (chunkLoop size overlap page k sec st).chunks.map Chunk.id
        = (List.range (chunkLoop size overlap page k sec st).chunks.length).map
            (fun j => page.id ++ "_" ++ Nat.repr k ++ "_" ++ Nat.repr j) := by
  induction sec generalizing st with
  | nil => exact ⟨hlen, hids⟩
  | cons b bs ih =>
    refine ih _ ?_ ?_
    all_goals
      rcases chunkStep_cases size overlap page k b st with ⟨he, hi⟩ | ⟨text, images, he, hi, _, _⟩
    · rw [he, hi, hlen]
    · rw [he, hi, hlen]
      simp [List.length_append]
    · rw [he, hids]
    · rw [he]
      simp only [List.map_append, List.length_append, List.map_cons, List.map_nil,
        List.length_cons, List.length_nil]
      rw [hids, hlen]
      have : st.chunks.length + (0 + 1) = st.chunks.length + 1 := by omega
      rw [this, List.range_succ]
      simp [mkChunk]

theorem createChunks_ids (size overlap : Nat) (page : NotionPage) (k : Nat)
    (sec : List NotionBlock) :
    (createChunksFromSection size overlap page k sec).map Chunk.id
      = (List.range (createChunksFromSection size overlap page k sec).length).map
          (fun j => page.id ++ "_" ++ Nat.repr k ++ "_" ++ Nat.repr j) := by
  have hloop := chunkLoop_ids size overlap page k sec ⟨[], [], [], 0⟩ (by simp) (by simp)
  simp only [createChunksFromSection]
  split_ifs with h
  · exact hloop.2
  · simp only [List.map_append, List.length_append, List.map_cons, List.map_nil,
      List.length_cons, List.length_nil]
    rw [hloop.2, ← hloop.1]
    have : (chunkLoop size overlap page k sec ⟨[], [], [], 0⟩).chunkIndex + (0 + 1)
        = (chunkLoop size overlap page k sec ⟨[], [], [], 0⟩).chunkIndex + 1 := by omega
    rw [this, List.range_succ]
    simp [mkChunk, hloop.1]

/-- Claim C7: chunking is deterministic (a pure function of the document and the
parameters), and within every section the `j`-th emitted chunk has id
`{page.id}_{section index}_{j}` (braces quoting the Python f-string). -/
theorem c7_deterministic_ids (size overlap : Nat) (page : NotionPage) :
    chunkPage size overlap page = chunkPage size overlap page ∧
    ∀ k sec, (createChunksFromSection size overlap page k sec).map Chunk.id
      = (List.range (createChunksFromSection size overlap page k sec).length).map
          (fun j => page.id ++ "_" ++ Nat.repr k ++ "_" ++ Nat.repr j) :=
  ⟨rfl, fun k sec => createChunks_ids size overlap page k sec⟩

theorem chunkStep_image_resets (size overlap : Nat) (page : NotionPage) (k : Nat)
    (b : NotionBlock) (st : CState) (h : getBlockImages b ≠ []) :
    (chunkStep size overlap page k b st).currentText = [] ∧
    (chunkStep size overlap page k b st).currentImages = [] := by
  have h1 : (getBlockImages b).isEmpty = false := by simpa using h
  simp only [chunkStep, h1, Bool.false_eq_true, if_false]
  split_ifs <;> exact ⟨rfl, rfl⟩

theorem chunkStep_paths (size overlap : Nat) (page : NotionPage) (k : Nat)
    (b : NotionBlock) (st : CState) (h : st.currentImages = []) :
    (chunkStep size overlap page k b st).currentImages = [] ∧
    ((chunkStep size overlap page k b st).chunks.map Chunk.image_paths).flatten
      = (st.chunks.map Chunk.image_paths).flatten ++ getBlockImages b := by
  by_cases hb : (getBlockImages b).isEmpty = true
  · have hb' : getBlockImages b = [] := by simpa using hb
    simp only [chunkStep, hb, if_true]
    split_ifs <;>
      simp [mkChunk, h, hb', List.map_append, List.flatten_append]
  · have hb' : getBlockImages b ≠ [] := by simpa using hb
    simp only [chunkStep, hb, Bool.false_eq_true, if_false]
    split_ifs with g1 g2 g3
    · refine ⟨rfl, ?_⟩
      simp [mkChunk, h, List.map_append, List.flatten_append]
    · exact absurd (by simpa [h] using not_not.mp (not_or.mp g2).2) hb
    · refine ⟨rfl, ?_⟩
      simp [mkChunk, h, List.map_append, List.flatten_append]
    · exact absurd (by simpa [h] using not_not.mp (not_or.mp g3).2) hb

theorem chunkLoop_paths (size overlap : Nat) (page : NotionPage) (k : Nat)
    (sec : List NotionBlock) (st : CState) (h : st.currentImages = []) :
    (chunkLoop size overlap page k sec st).currentImages = [] ∧
    ((chunkLoop size overlap page k sec st).chunks.map Chunk.image_paths).flatten
      = (st.chunks.map Chunk.image_paths).flatten ++ (sec.map getBlockImages).flatten := by
  induction sec generalizing st with
  | nil => refine ⟨?_, ?_⟩ <;> simp [chunkLoop, h]
  | cons b bs ih =>
    obtain ⟨h1, h2⟩ := chunkStep_paths size overlap page k b st h
    obtain ⟨h3, h4⟩ := ih (chunkStep size overlap page k b st) h1
    simp only [chunkLoop, List.map_cons, List.flatten_cons]
    refine ⟨h3, ?_⟩
    rw [h4, h2, List.append_assoc]

theorem createChunks_paths (size overlap : Nat) (page : NotionPage) (k : Nat)
    (sec : List NotionBlock) :
    ((createChunksFromSection size overlap page k sec).map Chunk.image_paths).flatten
      = (sec.map getBlockImages).flatten := by
  obtain ⟨h1, h2⟩ := chunkLoop_paths size overlap page k sec ⟨[], [], [], 0⟩ rfl
  simp only [createChunksFromSection]
  split_ifs with h
  · simpa using h2
  · simp only [List.map_append, List.flatten_append]
    rw [h2, h1]
    simp [mkChunk]

theorem enumFrom_chunks_paths (size overlap : Nat) (page : NotionPage)
    (ss : List (List NotionBlock)) (n : Nat) :
    ((((List.enumFrom n ss).map
        (fun p => createChunksFromSection size overlap page p.1 p.2)).flatten.map
          Chunk.image_paths).flatten)
      = ((ss.flatten).map getBlockImages).flatten := by
  induction ss generalizing n with
  | nil => simp
  | cons s ss ih =>
    simp only [List.enumFrom_cons, List.map_cons, List.flatten_cons, List.map_append,
      List.flatten_append]
    rw [createChunks_paths, ih (n + 1)]

theorem sublist_flatten_map {α β : Type} (f : α → List β) {l1 l2 : List α}
    (h : l1.Sublist l2) :
    ((l1.map f).flatten).Sublist ((l2.map f).flatten) := by
  induction h with
  | slnil => simp
  | cons a h ih =>
    simp only [List.map_cons, List.flatten_cons]
    exact ih.trans (List.sublist_append_right _ _)
  | cons₂ a h ih =>
    simp only [List.map_cons, List.flatten_cons]
    exact ih.append_left _

/-- The image paths attached to the chunks of a page are, in order, exactly the
image paths of the blocks placed into sections. -/
theorem chunkPage_paths (size overlap : Nat) (page : NotionPage) :
    (((chunkPage size overlap page).map Chunk.image_paths).flatten)
      = (((splitIntoSections page.blocks).flatten).map getBlockImages).flatten := by
  simp only [chunkPage, List.enum_eq_enumFrom]
  exact enumFrom_chunks_paths size overlap page (splitIntoSections page.blocks) 0

/-- Claim C6: (a) a block carrying an image always terminates the chunk it appears in
(the buffer and image list are reset at that block), and (b) when the image
local paths of the document's blocks are pairwise distinct, no path appears in
the `image_paths` of two different chunks of the `chunk_page` output. -/
theorem c6_image_anchoring :
    (∀ (size overlap : Nat) (page : NotionPage) (k : Nat) (b : NotionBlock) (st : CState),
      getBlockImages b ≠ [] →
        (chunkStep size overlap page k b st).currentText = [] ∧
        (chunkStep size overlap page k b st).currentImages = []) ∧
    (∀ (size overlap : Nat) (page : NotionPage),
      (((preBs page.blocks).map getBlockImages).flatten).Nodup →
        (chunkPage size overlap page).Pairwise
          (fun c1 c2 => ∀ p ∈ c1.image_paths, p ∉ c2.image_paths)) := by
  constructor
  · intro size overlap page k b st h
    exact chunkStep_image_resets size overlap page k b st h
  · intro size overlap page hnodup
    have hsub : (((chunkPage size overlap page).map Chunk.image_paths).flatten).Sublist
        (((preBs page.blocks).map getBlockImages).flatten) := by
      rw [chunkPage_paths, splitIntoSections_flatten]
      exact sublist_flatten_map getBlockImages (visitBs_sublist_preBs page.blocks)
    have hnd : (((chunkPage size overlap page).map Chunk.image_paths).flatten).Nodup :=
      List.Nodup.sublist hsub hnodup
    have hpair := (List.nodup_flatten.mp hnd).2
    rw [List.pairwise_map] at hpair
    refine hpair.imp ?_
    intro c1 c2 hd p hp
    exact hd hp

/-- Witness for `c6_image_anchoring`: an image block resets the buffer, and the
two distinct image paths of `pgWitness` land in disjoint chunks. -/
theorem c6_image_anchoring_witness :
    ((chunkStep 10 2 pgEx 0 (imageBlock "i" "/tmp/x.png") ⟨[], "abc".toList, [], 0⟩).currentText = []
      ∧ (chunkStep 10 2 pgEx 0 (imageBlock "i" "/tmp/x.png") ⟨[], "abc".toList, [], 0⟩).currentImages = []) ∧
    (chunkPage 1000 10 pgWitness).Pairwise
      (fun c1 c2 => ∀ p ∈ c1.image_paths, p ∉ c2.image_paths) := by
  constructor
  · exact c6_image_anchoring.1 10 2 pgEx 0 _ _ (by decide)
  · apply c6_image_anchoring.2
    have hpre : preBs pgWitness.blocks
        = [headBlock "h" "Intro" [], paraBlock "p" "some text" [],
           imageBlock "i1" "/tmp/img1.png", paraBlock "q" "after" [],
           imageBlock "i2" "/tmp/img2.png", paraBlock "r" "tail" []] := by
      simp [pgWitness, preBs, headBlock, paraBlock, imageBlock]
    rw [hpre]
    decide

/-- Witness for `c4_no_degenerate_chunks` at the concrete page `pgWitness`:
its final chunk carries no image and has real, non-whitespace text. -/
theorem c4_no_degenerate_chunks_witness :
    (0 : Nat) < 1000 ∧ chunkTail.text ≠ [] ∧
    ∃ ch ∈ chunkTail.text, ch.isWhitespace = false := by
  refine ⟨by decide, c4_no_degenerate_chunks 1000 10 pgWitness (by decide) chunkTail ?_ rfl⟩
  have hsec : splitIntoSections pgWitness.blocks = [pgWitness.blocks] := by
    simp [pgWitness, splitIntoSections, procBs, procCs, handleBlock, headBlock, paraBlock,
      imageBlock, isHeading_para, isHeading_h1, isHeading_img, NotionBlock.type]
  unfold chunkPage
  rw [hsec]
  decide

theorem getBlockText_para (i : String) (t : List Char) (ch : List NotionBlock)
    (md : List (String × String)) :
    getBlockText (NotionBlock.mk i BlockType.paragraph t none ch md) = t := by
  by_cases h : t.isEmpty = true
  · have ht : t = [] := by simpa using h
    subst ht
    simp [getBlockText, NotionBlock.text, NotionBlock.image, NotionBlock.type,
      List.intercalate]
  · simp [getBlockText, NotionBlock.text, NotionBlock.image, NotionBlock.type, h,
      renderedTypeHead, renderedTypeTail, List.intercalate]

/-- Claim C2 (amended): with `chunk_size = 50`, `chunk_overlap = 10`, a two-paragraph
section whose second block forces the split yields a second chunk whose text is
the last 10 characters of the first chunk's pre-overlap content, then a
NEWLINE, then the next block's rendered text (the source joins the overlap and
the block text with `"\n"`; the claim's direct concatenation omits it). -/
theorem c2_overlap_correctness (page : NotionPage) (k : Nat) (i1 i2 : String)
    (t1 t2 : List Char)
    (h1 : t1 ≠ [])
    (h2 : pstrip t1 = t1)
    (h3 : t1.length ≤ 50)
    (h4 : 50 < t1.length + 1 + t2.length)
    (h5 : pstrip (pyTail 10 t1 ++ '\n' :: t2) = pyTail 10 t1 ++ '\n' :: t2) :
    (createChunksFromSection 50 10 page k
        [NotionBlock.mk i1 BlockType.paragraph t1 none [] [],
         NotionBlock.mk i2 BlockType.paragraph t2 none [] []]).map Chunk.text
      = [t1, pyTail 10 t1 ++ '\n' :: t2] := by
  have hb1 : getBlockImages (NotionBlock.mk i1 BlockType.paragraph t1 none [] []) = [] := rfl
  have hb2 : getBlockImages (NotionBlock.mk i2 BlockType.paragraph t2 none [] []) = [] := rfl
  have ht1 : t1.isEmpty = false := by simpa using h1
  have hlen1 : ¬ (50 < t1.length) := by omega
  have hstep1 : chunkStep 50 10 page k (NotionBlock.mk i1 BlockType.paragraph t1 none [] [])
      ⟨[], [], [], 0⟩ = ⟨[], t1, [], 0⟩ := by
    simp [chunkStep, hb1, getBlockText_para, hlen1]
  have hlen2 : 50 < t1.length + (t2.length + 1) := by omega
  have hne1 : (pstrip t1).isEmpty = false := by
    rw [h2]
    exact ht1
  have hstep2 : chunkStep 50 10 page k (NotionBlock.mk i2 BlockType.paragraph t2 none [] [])
      ⟨[], t1, [], 0⟩
      = ⟨[mkChunk page k 0 t1 []], pyTail 10 t1 ++ '\n' :: t2, [], 1⟩ := by
    simp [chunkStep, hb2, getBlockText_para, ht1, hlen2, hne1, h2]
  have hfin : pstrip (pyTail 10 t1 ++ '\n' :: t2) ≠ [] := by
    rw [h5]
    simp
  simp only [createChunksFromSection, chunkLoop, hstep1, hstep2]
  rw [if_neg (by simpa using hfin)]
  simp [mkChunk, h5]

/-- Counterexample to claim C2: at `chunk_size = 50`, `chunk_overlap = 10`, the second
chunk emitted for `secOverlap` is the 10-character overlap, a newline, then
"bbbbb"; it does not start with the overlap directly concatenated with "bbbbb"
as the claim states. -/
theorem c2_counterexample :
    ((createChunksFromSection 50 10 pgEx 0 secOverlap).map Chunk.text).getD 1 []
        = pyTail 10 t1ex ++ '\n' :: "bbbbb".toList ∧
    ¬ ((pyTail 10 t1ex ++ "bbbbb".toList).isPrefixOf
        (((createChunksFromSection 50 10 pgEx 0 secOverlap).map Chunk.text).getD 1 []) = true) := by
  decide

/-- Witness for `c2_overlap_correctness` at the concrete split-forcing input. -/
theorem c2_overlap_correctness_witness :
    (createChunksFromSection 50 10 pgEx 0 secOverlap).map Chunk.text
      = [t1ex, pyTail 10 t1ex ++ '\n' :: "bbbbb".toList] := by
  have h := c2_overlap_correctness pgEx 0 "a" "b" t1ex ("bbbbb".toList)
    (by decide) (by decide) (by decide) (by decide) (by decide)
  simpa [secOverlap] using h

/-! ## RAG query flow and image annotation -/

/-- Claim C3: when the injected search yields no results, `RAGChain.chat` returns the
fixed apology answer with empty sources and empty image paths, and makes zero
generation-model calls. -/
theorem c3_chat_empty_search (llm : List Message → String) (question : String) :
    ragChat [] llm question = (⟨apologyAnswer, [], []⟩, 0) := rfl

/-- Claim C8: `ImageProcessor.process_image` is total (this embedding is a Lean
function: the source catches every exception of both stages); on download
failure the input `ImageInfo` is returned unchanged (so `local_path` and
`description` stay unset), and on description failure the description falls
back to the existing caption, or `""` when there is none. -/
theorem c8_process_image_degrades (dl ds : Option String) (img : ImageInfo) :
    (dl = none → processImage dl ds img = img) ∧
    (∀ p, dl = some p → img.url.isEmpty = false →
      (processImage dl ds img).local_path = some p ∧
      (ds = none → (processImage dl ds img).description
          = some (img.caption.getD ""))) := by
  constructor
  · intro h
    subst h
    simp [processImage]
  · intro p hp hurl
    subst hp
    refine ⟨?_, fun hds => ?_⟩
    · simp [processImage, hurl]
    · subst hds
      simp [processImage, hurl]

/-- Witness for `c8_process_image_degrades`: a failed download leaves the
record unchanged, and a failed description falls back to the caption. -/
theorem c8_process_image_degrades_witness :
    processImage none (some "d") ⟨"http://a", none, none, some "cap"⟩
        = ⟨"http://a", none, none, some "cap"⟩ ∧
    (processImage (some "/tmp/p.png") none ⟨"http://a", none, none, some "cap"⟩).local_path
        = some "/tmp/p.png" ∧
    (processImage (some "/tmp/p.png") none ⟨"http://a", none, none, some "cap"⟩).description
        = some "cap" :=
  ⟨(c8_process_image_degrades none (some "d") ⟨"http://a", none, none, some "cap"⟩).1 rfl,
   ((c8_process_image_degrades (some "/tmp/p.png") none
      ⟨"http://a", none, none, some "cap"⟩).2 "/tmp/p.png" rfl (by decide)).1,
   ((c8_process_image_degrades (some "/tmp/p.png") none
      ⟨"http://a", none, none, some "cap"⟩).2 "/tmp/p.png" rfl (by decide)).2 rfl⟩

/-- Claim C9: for a non-empty search result list, the answer's `image_paths` holds
exactly the distinct paths occurring in the results (set membership), each
exactly once. -/
theorem c9_image_paths_dedup (results : List SearchResult)
    (llm : List Message → String) (question : String) (h : results ≠ []) :
    (∀ p, p ∈ (ragChat results llm question).1.image_paths ↔
        ∃ r ∈ results, p ∈ r.image_paths) ∧
    (∀ p ∈ (ragChat results llm question).1.image_paths,
        (ragChat results llm question).1.image_paths.count p = 1) := by
  have hne : results.isEmpty = false := by simpa using h
  constructor
  · intro p
    simp [ragChat, hne, List.mem_dedup, List.mem_flatten]
  · intro p hp
    have hnd : (ragChat results llm question).1.image_paths.Nodup := by
      simp [ragChat, hne]
      exact List.nodup_dedup _
    exact List.count_eq_one_of_mem hnd hp

/-- Witness for `c9_image_paths_dedup`: two results with scores 0.9 and 0.7 for
the same image path yield that path exactly once. -/
theorem c9_image_paths_dedup_witness :
    resultsShared ≠ [] ∧
    (ragChat resultsShared llmConst "q").1.image_paths.count "img.png" = 1 :=
  ⟨by decide,
   (c9_image_paths_dedup resultsShared llmConst "q" (by decide)).2 "img.png"
     (by decide)⟩

/-- Claim C10: with an empty search result list, `chat_with_history` still makes one
generation-model call, with the context replaced by the fixed placeholder, and
returns the model's text verbatim together with empty sources and empty
image paths (it does not take the fixed-apology early return of `chat`). -/
theorem c10_chat_with_history_empty_search (llm : List Message → String)
    (history : List Message) (question : String) :
    ragChatWithHistory [] llm history question
      = (⟨llm (Message.mk "system" SYSTEM_PROMPT :: history
              ++ [Message.mk "user" (ragPrompt noInfoContext question)]),
          [], []⟩, 1) := rfl
